import Mathlib

/-!
Verification of the aptreader fetch-and-reconcile pipeline.

This file shallowly embeds the pure decision logic of the repository's
fetcher and reconciliation code (src/aptreader/fetcher.py,
src/aptreader/repository.py, src/aptreader/backend/backend.py) and proves
or refutes the frozen specification claims about it.

Modelling conventions:
 - Python strings are Lean String; a deb822 field map (the dict produced
   from a parsed paragraph) is an association list with unique keys.
 - The HTTP transport is abstracted: a HEAD request yields either a
   failure or pre-parsed header data; a GET either succeeds or fails.
   Timestamps are integers (seconds).
 - The database is a list of rows; one session-commit unit is modelled as
   one pure state transformation on that list.
 - Monotonic time (time.monotonic in the reconcile loop) is a function
   from the number of processed entries to the observed clock value.
-/

namespace AptReader

/-- Python str.strip of a character class, on the underlying char list
(strips matching characters from both ends). -/
def listStrip (p : Char → Bool) (cs : List Char) : List Char :=
  ((cs.dropWhile p).reverse.dropWhile p).reverse

/-- Python str.strip() with no arguments: strip whitespace from both ends. -/
def pyStrip (s : String) : String :=
  ⟨listStrip (fun c => c.isWhitespace) s.data⟩

/-- Python s.strip of a slash as used by the directory-listing parser:
strips slashes from BOTH ends of the string (not only the trailing one). -/
def pyStripSlashes (s : String) : String :=
  ⟨listStrip (fun c => c == '/') s.data⟩

/-- Whether a string is empty, computed on the char list so that it
reduces in the kernel. -/
def pyIsEmpty (s : String) : Bool :=
  s.data.isEmpty

/-- Python s.lower(), computed on the char list. -/
def pyToLower (s : String) : String :=
  ⟨s.data.map Char.toLower⟩

/-- Python s.startswith(t), computed on the char lists. -/
def pyStartsWith (s t : String) : Bool :=
  t.data.isPrefixOf s.data

/-- Python s.endswith(t), computed on the char lists. -/
def pyEndsWith (s t : String) : Bool :=
  t.data.reverse.isPrefixOf s.data.reverse

/-- Splitting a char list on a separator class, keeping empty chunks. -/
def listSplit (p : Char → Bool) : List Char → List String
  | [] => [""]
  | c :: cs =>
    let rest := listSplit p cs
    if p c then "" :: rest
    else
      match rest with
      | [] => [⟨[c]⟩]
      | t :: ts => (⟨c :: t.data⟩ : String) :: ts

/-- Python str.split() with no arguments: split on whitespace runs,
producing no empty tokens. -/
def pySplitWs (s : String) : List String :=
  (listSplit (fun c => c.isWhitespace) s.data).filter (fun t => !pyIsEmpty t)

/-- Lookup in a field map (Python dict.get): first binding of the key.
Field maps built from parsed paragraphs have unique keys. -/
def fieldGet (e : List (String × String)) (k : String) : Option String :=
  (e.find? (fun p => p.1 == k)).map (fun p => p.2)

/-- A parsed deb822 paragraph as a field map. -/
abbrev Entry := List (String × String)

/-! ## Conditional fetcher (fetcher.py, download_file) -/

/-- File download skip modes (fetcher.py, class SkipMode):
fast skips when the local file exists, check consults HEAD metadata,
nothing always downloads. -/
inductive SkipMode where
  | fast
  | check
  | none
deriving DecidableEq, Repr

/-- Local file metadata as seen by download_file: st_mtime and st_size. -/
structure LocalStat where
  mtime : Int
  size : Int
deriving DecidableEq, Repr

/-- Pre-parsed headers of a successful HEAD response.
lastModified is the result of try_parse_date on the Last-Modified header:
none when the header is absent or unparsable (utils.try_parse_date returns
None in both cases, and the code cannot distinguish them).
contentLength is the parsed Content-Length: none when absent, empty or
non-numeric (a non-numeric value raises inside the try block, which is
caught and falls through to the GET). -/
structure HeadInfo where
  lastModified : Option Int
  contentLength : Option Int
deriving DecidableEq, Repr

/-- Outcome of the HEAD request: fail covers connection errors and
raise_for_status on a non-2xx response (caught by the inner except). -/
inductive HeadResult where
  | fail
  | ok (info : HeadInfo)
deriving DecidableEq, Repr

/-- What download_file did: whether it reported success, and whether it
performed the GET request (didGet = false means it skipped). -/
structure DownloadOutcome where
  success : Bool
  didGet : Bool
deriving DecidableEq, Repr

/-- fetcher.py download_file, as a decision procedure over the local file
state, the HEAD outcome and the GET outcome (getOk models whether the GET
succeeds at the transport level; on GET failure the function returns
False). Mirrors the source control flow: FAST skips when the file exists;
CHECK issues a HEAD and skips when the parsed Last-Modified is at most
mtime + 1 (one second of filesystem-granularity tolerance), else when
Last-Modified is unavailable and Content-Length equals the local size;
every other path performs the GET. -/
def download_file (skip_mode : SkipMode) (existing : Option LocalStat)
    (head : HeadResult) (getOk : Bool) : DownloadOutcome :=
  match existing with
  | Option.none => ⟨getOk, true⟩
  | Option.some stat =>
    match skip_mode with
    | SkipMode.fast => ⟨true, false⟩
    | SkipMode.none => ⟨getOk, true⟩
    | SkipMode.check =>
      match head with
      | HeadResult.fail => ⟨getOk, true⟩
      | HeadResult.ok info =>
        match info.lastModified with
        | Option.some lm =>
          if lm ≤ stat.mtime + 1 then ⟨true, false⟩ else ⟨getOk, true⟩
        | Option.none =>
          match info.contentLength with
          | Option.some len =>
            if len = stat.size then ⟨true, false⟩ else ⟨getOk, true⟩
          | Option.none => ⟨getOk, true⟩

/-! ## Packages index download (fetcher.py, download_packages_index) -/

/-- fetcher.py build_packages_url: the canonical Packages index URL for a
component and architecture. urljoin of a base ending in a slash with the
purely relative dists path is string concatenation. -/
def build_packages_url (repo_url dist component architecture sfx : String) : String :=
  let base := if pyEndsWith repo_url "/" then repo_url else repo_url ++ "/"
  base ++ "dists/" ++ dist ++ "/" ++ component ++ "/binary-" ++ architecture ++ "/" ++ sfx

/-- The suffix loop inside download_packages_index: try each Packages
variant in order, returning the first success together with the list of
URLs actually attempted (fetchOk is the outcome of download_file for a
URL, toLocal models url_to_local_path). -/
def try_suffixes (fetchOk : String → Bool) (toLocal : String → String)
    (repo_url dist component architecture : String) :
    List String → Option (String × String) × List String
  | [] => (Option.none, [])
  | sfx :: rest =>
    let u := build_packages_url repo_url dist component architecture sfx
    if fetchOk u then (Option.some (u, toLocal u), [u])
    else
      let r := try_suffixes fetchOk toLocal repo_url dist component architecture rest
      (r.1, u :: r.2)

/-- fetcher.py download_packages_index: try Packages.gz, then plain
Packages, returning the first successful (url, local path) or none. -/
def download_packages_index (fetchOk : String → Bool) (toLocal : String → String)
    (repo_url dist component architecture : String) :
    Option (String × String) × List String :=
  try_suffixes fetchOk toLocal repo_url dist component architecture
    ["Packages.gz", "Packages"]

/-! ## Distribution discovery (fetcher.py and repository.py) -/

/-- An HTML start tag as delivered by the external HTMLParser:
tag name and attribute list. -/
abbrev Tag := String × List (String × String)

/-- Python dict(attrs).get(k, default omitted): for duplicate attribute
names the later binding wins, as in dict construction. -/
def attrsGet (attrs : List (String × String)) (k : String) : Option String :=
  (attrs.reverse.find? (fun p => p.1 == k)).map (fun p => p.2)

/-- The handle_starttag hook of _DirectoryListingParser, as a fold step on
the accumulated entry list: keep anchor tags whose href is nonempty, is
not a query link, is not ../ or /, and ends in a slash; record the href
stripped of slashes, skipping empties and already-seen names. -/
def handle_starttag (entries : List String) (t : Tag) : List String :=
  if pyToLower t.1 != "a" then entries
  else
    let href := (attrsGet t.2 "href").getD ""
    if pyIsEmpty href || pyStartsWith href "?" then entries
    else if href == "../" || href == "/" then entries
    else if !pyEndsWith href "/" then entries
    else
      let name := pyStripSlashes href
      if !pyIsEmpty name && !entries.contains name then entries ++ [name] else entries

/-- get_entries after feeding a sequence of start tags to the parser. -/
def parserEntries (tags : List Tag) : List String :=
  tags.foldl handle_starttag []

/-- The name contributed by a single tag, if any: a restatement of the
handle_starttag conditions without the dedup state, used to characterize
the parser output. -/
def candidateName (t : Tag) : Option String :=
  if pyToLower t.1 != "a" then none
  else
    let href := (attrsGet t.2 "href").getD ""
    if pyIsEmpty href || pyStartsWith href "?" then none
    else if href == "../" || href == "/" then none
    else if !pyEndsWith href "/" then none
    else
      let name := pyStripSlashes href
      if !pyIsEmpty name then some name else none

/-- First-seen-order deduplication step. -/
def dedupStep (acc : List String) (x : String) : List String :=
  if acc.contains x then acc else acc ++ [x]

/-- First-seen-order deduplication (Python dict.fromkeys keeps the first
occurrence of each key in insertion order). -/
def dedupFirstSeen (l : List String) : List String :=
  l.foldl dedupStep []

/-- A fetched dists/ listing body, abstracting response.text together
with its tokenization by the external HTMLParser: the start tags the
parser reports, and the raw text split into lines for the plain-text
fallback heuristic. -/
structure Body where
  tags : List Tag
  lines : List String

/-- The candidate a single raw listing line contributes to the fallback
heuristic in discover_distributions: strip the line, skip empty lines and
lines starting with two dots, keep lines ending with a slash, stripped of
slashes. -/
def lineCandidate (line : String) : Option String :=
  let token := pyStrip line
  if pyIsEmpty token || pyStartsWith token ".." then none
  else if pyEndsWith token "/" then some (pyStripSlashes token) else none

/-- The names discovery extracts from a successfully fetched listing body
(shared by fetcher.discover_distributions and
RepositoryManager._discover_distributions): anchor-derived entries, or,
when those are empty and the line heuristic finds candidates, the
deduplicated line candidates. -/
def discoveredNames (body : Body) : List String :=
  let entries := parserEntries body.tags
  if entries.isEmpty then
    let candidates := body.lines.filterMap lineCandidate
    if candidates.isEmpty then entries else dedupFirstSeen candidates
  else entries

/-- fetcher.py discover_distributions: propagate a transport error of the
listing GET (raise_for_status), otherwise return the extracted names,
possibly the empty list. -/
def discover_distributions (resp : Except Unit Body) : Except Unit (List String) :=
  match resp with
  | Except.error _ => Except.error ()
  | Except.ok body => Except.ok (discoveredNames body)

/-- Failure modes of RepositoryManager._discover_distributions: a
transport error of the listing GET, or the ValueError it raises when no
distribution names were extracted. -/
inductive DiscoveryError where
  | transport
  | noDistributions
deriving DecidableEq, Repr

/-- repository.py RepositoryManager._discover_distributions: same
extraction, but raises (ValueError) when the extracted name list is
empty. -/
def repo_discover_distributions (resp : Except Unit Body) :
    Except DiscoveryError (List String) :=
  match resp with
  | Except.error _ => Except.error DiscoveryError.transport
  | Except.ok body =>
    let entries := discoveredNames body
    if entries.isEmpty then Except.error DiscoveryError.noDistributions
    else Except.ok entries

/-- Whether an Except value is a success. -/
def exceptOk {ε α : Type} : Except ε α → Bool
  | Except.ok _ => true
  | Except.error _ => false

/-! ## Target selection for package sync (repository.py _load_release and
backend.py fetch_distribution_packages) -/

/-- The filter dropping the pseudo-architectures all and source,
as applied in RepositoryManager._load_release. -/
def excludeSpecial (l : List String) : List String :=
  l.filter (fun a => !(a == "all" || a == "source"))

/-- The target-architecture selection of RepositoryManager._load_release:
drop all and source from the declared architectures; when a (truthy)
caller filter is supplied, intersect with it, falling back to the filter
itself minus all and source when the intersection is empty; finally fall
back to the filtered declared set when the result is empty. -/
def selectTargetArches (declared : List String) (archFilter : Option (List String)) :
    List String :=
  let filtered := excludeSpecial declared
  let target :=
    match archFilter with
    | some fl =>
      if fl.isEmpty then filtered
      else
        let fa := fl.filter (fun a => !pyIsEmpty a)
        let t := filtered.filter (fun a => fa.contains a)
        if t.isEmpty then excludeSpecial fa else t
    | none => filtered
  if target.isEmpty then filtered else target

/-- The (component, architecture) target list built by
backend.fetch_distribution_packages from the stored distribution row:
the full cross product of the stored component and architecture names,
components outer, with no exclusion of all or source. -/
def packageSyncTargets (component_names architecture_names : List String) :
    List (String × String) :=
  component_names.flatMap (fun comp => architecture_names.map (fun arch => (comp, arch)))

/-! ## Distribution replacement (backend.py _replace_repository_distributions) -/

/-- A stored Distribution row, with the fields
_replace_repository_distributions writes. -/
structure DistRow where
  repository_id : Nat
  name : String
  raw : String
  architecture_names : List String
  component_names : List String
  date : Option String
  description : Option String
  origin : String
  suite : String
  version : String
  codename : String
  last_fetched_at : Int
deriving DecidableEq, Repr

/-- The Distribution construction inside _replace_repository_distributions,
from one fetched (dist_name, raw Release text, parsed field map) triple:
Architectures and Components are whitespace-split, Suite and Codename
default to the probed name, Origin and Version default to the empty
string, and the insert timestamp is the Unix epoch. -/
def mkDistribution (repo_id : Nat) (dist_name raw_text : String) (parsed : Entry) :
    DistRow :=
  { repository_id := repo_id
    name := dist_name
    raw := raw_text
    architecture_names := pySplitWs ((fieldGet parsed "Architectures").getD "")
    component_names := pySplitWs ((fieldGet parsed "Components").getD "")
    date := fieldGet parsed "Date"
    description := fieldGet parsed "Description"
    origin := (fieldGet parsed "Origin").getD ""
    suite := (fieldGet parsed "Suite").getD dist_name
    version := (fieldGet parsed "Version").getD ""
    codename := (fieldGet parsed "Codename").getD dist_name
    last_fetched_at := 0 }

/-- backend.py _replace_repository_distributions as one state transition
on the Distribution table (the delete loop, flush, add_all and commit all
happen inside one session unit; on NoResultFound for the repository the
transaction is abandoned and the table is unchanged). -/
def replace_repository_distributions (repo_ids : List Nat) (table : List DistRow)
    (repo_id : Nat) (fetched : List (String × String × Entry)) : List DistRow :=
  if repo_ids.contains repo_id then
    table.filter (fun d => d.repository_id != repo_id) ++
      fetched.map (fun t => mkDistribution repo_id t.1 t.2.1 t.2.2)
  else table

/-! ## Package record construction (backend.py _safe_int, _clean_text,
_build_package_model) -/

/-- Digits-only decimal parse on a char list; none on empty or on any
non-digit character. -/
def parseDecimalAux : List Char → Nat → Option Nat
  | [], acc => some acc
  | c :: cs, acc =>
    if c.isDigit then parseDecimalAux cs (acc * 10 + (c.toNat - '0'.toNat)) else none

/-- Decimal parse of a nonempty digit string. -/
def parseDecimal : List Char → Option Nat
  | [] => none
  | cs => parseDecimalAux cs 0

/-- Python int(s) on an optionally signed decimal string: surrounding
whitespace is stripped, then an optional sign and digits; none models the
ValueError on anything else (underscore digit grouping is not modelled). -/
def pyParseInt (s : String) : Option Int :=
  match (pyStrip s).data with
  | '-' :: rest => (parseDecimal rest).map (fun n => -(n : Int))
  | '+' :: rest => (parseDecimal rest).map (fun n => (n : Int))
  | cs => (parseDecimal cs).map (fun n => (n : Int))

/-- backend.py _safe_int: int(value) for a non-None, nonempty value,
with TypeError and ValueError reduced to None. This helper is defined in
the source but never called. -/
def _safe_int (value : Option String) : Option Int :=
  match value with
  | Option.none => Option.none
  | Option.some s => if pyIsEmpty s then Option.none else pyParseInt s

/-- Python truthiness of an optional string: None and the empty string
are falsy. -/
def pyFalsyStr : Option String → Bool
  | Option.none => true
  | Option.some s => pyIsEmpty s

/-- Python truthiness of an optional integer primary key: None and 0 are
falsy. -/
def pyFalsyId : Option Nat → Bool
  | Option.none => true
  | Option.some n => n == 0

/-- backend.py _clean_text: the stripped value when the strip is truthy,
otherwise the value itself when truthy, otherwise None. -/
def _clean_text (value : Option String) : Option String :=
  match value with
  | Option.none => Option.none
  | Option.some s =>
    if !pyIsEmpty (pyStrip s) then some (pyStrip s)
    else if !pyIsEmpty s then some s
    else Option.none

/-- A Package row as _build_package_model constructs it. The size and
installed_size attributes hold the raw field value (an optional string):
the source assigns entry.get directly, and SQLModel table classes do not
validate or convert on construction, so the attribute keeps whatever
string the Packages entry carried. -/
structure PackageRow where
  name : String
  version : String
  section_ : Option String
  priority : Option String
  size : Option String
  installed_size : Option String
  filename : Option String
  source : Option String
  maintainer : Option String
  homepage : Option String
  description : Option String
  description_md5 : Option String
  checksum_md5 : Option String
  checksum_sha1 : Option String
  checksum_sha256 : Option String
  tags : Option String
  raw_control : Entry
  repository_id : Nat
  distribution_id : Nat
  component_id : Nat
  architecture_id : Nat
  last_fetched_at : Nat
deriving DecidableEq, Repr

/-- backend.py _build_package_model: None when Package or Version is
falsy or any of the owning row ids is falsy, else the Package row with
fields mapped from the entry (ids are the primary keys of the
distribution, component and architecture rows, repository_id the
distribution's repository, now the construction timestamp). -/
def _build_package_model (entry : Entry) (distribution_id component_id architecture_id : Option Nat)
    (repository_id : Nat) (now : Nat) : Option PackageRow :=
  let name := fieldGet entry "Package"
  let version := fieldGet entry "Version"
  if pyFalsyStr name || pyFalsyStr version then Option.none
  else if pyFalsyId distribution_id || pyFalsyId component_id || pyFalsyId architecture_id then
    Option.none
  else
    Option.some
      { name := name.getD ""
        version := version.getD ""
        section_ := fieldGet entry "Section"
        priority := fieldGet entry "Priority"
        size := fieldGet entry "Size"
        installed_size := fieldGet entry "Installed-Size"
        filename := fieldGet entry "Filename"
        source := fieldGet entry "Source"
        maintainer := fieldGet entry "Maintainer"
        homepage := fieldGet entry "Homepage"
        description := _clean_text (fieldGet entry "Description")
        description_md5 := fieldGet entry "Description-md5"
        checksum_md5 := fieldGet entry "MD5sum"
        checksum_sha1 := fieldGet entry "SHA1"
        checksum_sha256 := fieldGet entry "SHA256"
        tags := fieldGet entry "Tag"
        raw_control := entry
        repository_id := repository_id
        distribution_id := distribution_id.getD 0
        component_id := component_id.getD 0
        architecture_id := architecture_id.getD 0
        last_fetched_at := now }

/-! ## Package reconciliation (backend.py _replace_packages_for_target) -/

/-- Whether a (name, version) key is present among the rows of the
in-memory map. -/
def keyMem (rows : List PackageRow) (n v : String) : Bool :=
  rows.any (fun r => r.name == n && r.version == v)

/-- Refreshing the last_fetched_at timestamp of the first row matching a
(name, version) key — the in-place mutation of the mapped row object
(keys are unique in the map by the table's uniqueness constraint). -/
def touchFirst (now : Nat) (n v : String) : List PackageRow → List PackageRow
  | [] => []
  | r :: rs =>
    if r.name == n && r.version == v then { r with last_fetched_at := now } :: rs
    else r :: touchFirst now n v rs

/-- A row with its timestamp erased, for stating that only
last_fetched_at changed. -/
def stripTs (r : PackageRow) : PackageRow :=
  { r with last_fetched_at := 0 }

/-- The mutable state of one reconciliation pass: the rows of the
in-memory (name, version) map built once from storage, the staged insert
rows, and the count of streamed entries processed. -/
structure ReconState where
  existing : List PackageRow
  inserted : List PackageRow
  idx : Nat
deriving Repr

/-- The fixed data of one reconciliation pass: the construction timestamp
(datetime.now is modelled as one value per pass), the owning row ids, and
the monotonic clock, modelled as the time observed at the flush check
after the i-th entry (clock 0 is the time recorded before the loop). -/
structure ReconParams where
  now : Nat
  repository_id : Nat
  distribution_id : Option Nat
  component_id : Option Nat
  architecture_id : Option Nat
  clock : Nat → Nat

/-- The body of the entry loop in _replace_packages_for_target, for one
streamed entry: count it; skip it when Package or Version is absent;
refresh the timestamp of the mapped row when the key is present;
otherwise build a fresh row and stage it when the build succeeds. -/
def reconcileStep (ps : ReconParams) (st : ReconState) (e : Entry) : ReconState :=
  let st := { st with idx := st.idx + 1 }
  match fieldGet e "Package", fieldGet e "Version" with
  | Option.some n, Option.some v =>
    if keyMem st.existing n v then
      { st with existing := touchFirst ps.now n v st.existing }
    else
      match _build_package_model e ps.distribution_id ps.component_id ps.architecture_id
          ps.repository_id ps.now with
      | Option.some p => { st with inserted := st.inserted ++ [p] }
      | Option.none => st
  | _, _ => st

/-- The continue condition of the entry loop: the entry lacks a Package
or a Version field, so the loop skips the rest of its body — including
the flush check — after counting the entry. -/
def entrySkipped (e : Entry) : Bool :=
  (fieldGet e "Package").isNone || (fieldGet e "Version").isNone

/-- The entry loop with its time-based flush: after each entry carrying
both Package and Version, when the monotonic clock has advanced by more
than one second since the last flush, the session is flushed, the running
entry count is yielded, and the flush time is recorded; an entry missing
either field is counted but its continue bypasses the flush check.
Returns the final state and the yielded progress counts. -/
def reconcileLoop (ps : ReconParams) :
    List Entry → ReconState → Nat → ReconState × List Nat
  | [], st, _ => (st, [])
  | e :: es, st, last =>
    let st1 := reconcileStep ps st e
    if entrySkipped e then reconcileLoop ps es st1 last
    else if ps.clock st1.idx > last + 1 then
      let r := reconcileLoop ps es st1 (ps.clock st1.idx)
      (r.1, st1.idx :: r.2)
    else reconcileLoop ps es st1 last

/-- backend.py _replace_packages_for_target over a fully streamed entry
sequence: run the loop from the map rows loaded from storage, then (the
for-else clause) flush, commit and yield the final entry count. -/
def replace_packages_for_target (ps : ReconParams) (rows : List PackageRow)
    (entries : List Entry) : ReconState × List Nat :=
  let r := reconcileLoop ps entries ⟨rows, [], 0⟩ (ps.clock 0)
  (r.1, r.2 ++ [r.1.idx])

/-! ## Streaming Packages entries (fetcher.py iter_packages_entries and
iter_packages_entries_async) -/

/-- Whether a line is a paragraph separator: the async iterator tests
line.strip() == "", and deb822 paragraphs are separated by blank
(whitespace-only) lines. -/
def isBlankLine (l : String) : Bool :=
  pyIsEmpty (pyStrip l)

/-- Appending a continuation line to the most recently added field of a
paragraph under construction. -/
def addToLast : List (String × String) → String → List (String × String)
  | [], _ => []
  | [p], extra => [(p.1, p.2 ++ "\n" ++ extra)]
  | p :: q :: rest, extra => p :: addToLast (q :: rest) extra

/-- Splitting a field line at its first colon. -/
def breakColon : List Char → Option (List Char × List Char)
  | [] => Option.none
  | c :: cs =>
    if c == ':' then Option.some ([], cs)
    else (breakColon cs).map (fun p => (c :: p.1, p.2))

/-- Modelled from the spec (section 4.1): one line of the deb822
paragraph parser of the external python-debian library, which both
iterators delegate paragraph parsing to. Comment lines are ignored,
continuation lines starting with whitespace extend the previous field,
field lines split at the first colon with the value stripped, duplicate
field names keep the first binding, and lines with no colon are skipped
defensively. -/
def paraStep (fields : List (String × String)) (l : String) : List (String × String) :=
  if pyStartsWith l "#" then fields
  else
    match l.data with
    | [] => fields
    | c :: _ =>
      if c.isWhitespace then addToLast fields (pyStrip l)
      else
        match breakColon l.data with
        | Option.some (k, v) =>
          let key : String := ⟨k⟩
          if fields.any (fun p => p.1 == key) then fields
          else fields ++ [(key, pyStrip ⟨v⟩)]
        | Option.none => fields

/-- Modelled from the spec (section 4.1): parsing one blank-line-free
paragraph into its field map. -/
def parsePara (lines : List String) : Entry :=
  lines.foldl paraStep []

/-- The paragraph stream the sync iterator obtains from a decoded line
sequence: deb822 iter_paragraphs yields the field maps of the nonempty
runs of lines between blank lines. -/
def syncParagraphStream (lines : List String) : List Entry :=
  ((lines.splitOnP isBlankLine).filter (fun c => !c.isEmpty)).map parsePara

/-- The hand-rolled accumulation loop of iter_packages_entries_async:
collect lines of the current paragraph; on a line whose strip is empty,
emit the accumulated paragraph if any and reset; at end of input emit
the leftover paragraph if any. -/
def asyncChunks (lines : List String) (acc : List String) : List (List String) :=
  match lines with
  | [] => if acc.isEmpty then [] else [acc]
  | l :: ls =>
    if isBlankLine l then
      if acc.isEmpty then asyncChunks ls [] else acc :: asyncChunks ls []
    else asyncChunks ls (acc ++ [l])

/-- The paragraph stream the async iterator builds from a decoded line
sequence: the manual chunking loop followed by the shared paragraph
parser. -/
def asyncParagraphStream (lines : List String) : List Entry :=
  (asyncChunks lines []).map parsePara

/-- A downloaded Packages index file as _open_text_stream sees it:
whether its path ends in .gz (local_path.suffix), whether its content is
valid gzip, the decoded lines of the gzip decompression when it is, and
the decoded lines of a plain-text read of the raw bytes. The model takes
a gzip failure to be detected at the first read (a bad magic number, the
non-gzip-content case the fallbacks exist for). -/
structure IndexFile where
  isGzPath : Bool
  gzipValid : Bool
  gzipLines : List String
  rawLines : List String

/-- fetcher.py iter_packages_entries: its _open_text_stream opens gzip
when the path ends in .gz, but the except OSError there guards only the
open call, which for an existing file cannot fail because gzip validates
its header lazily at the first read — so a non-gzip file at a .gz path
raises BadGzipFile mid-iteration, modelled as the error result; every
other path yields the deb822 paragraph stream over the decoded lines. -/
def iter_packages_entries (f : IndexFile) : Except Unit (List Entry) :=
  if f.isGzPath then
    if f.gzipValid then Except.ok (syncParagraphStream f.gzipLines)
    else Except.error ()
  else Except.ok (syncParagraphStream f.rawLines)

/-- fetcher.py iter_packages_entries_async: its _open_text_stream's
except OSError wraps the whole gzip read loop, so on a non-gzip file at a
.gz path it falls back to the plain-text read and yields those lines
instead; the manual chunking loop then parses the paragraphs. -/
def iter_packages_entries_async (f : IndexFile) : Except Unit (List Entry) :=
  if f.isGzPath then
    if f.gzipValid then Except.ok (asyncParagraphStream f.gzipLines)
    else Except.ok (asyncParagraphStream f.rawLines)
  else Except.ok (asyncParagraphStream f.rawLines)

/-- A concrete plain-text Packages file stored at a .gz path: gzip
decoding fails, a plain read yields one two-field paragraph. -/
def gzMisnamed : IndexFile :=
  ⟨true, false, [], ["Package: foo", "Version: 1.0"]⟩

/-- A concrete valid gzip-compressed Packages file at a .gz path whose
decompression yields one two-field paragraph. -/
def gzValidFile : IndexFile :=
  ⟨true, true, ["Package: foo", "Version: 1.0"], []⟩

/-- A concrete stored package row used by witnesses: name foo,
version 1.0, a prior timestamp 3, all optional fields absent. -/
def rowFoo : PackageRow :=
  { name := "foo", version := "1.0", section_ := none, priority := none,
    size := none, installed_size := none, filename := none, source := none,
    maintainer := none, homepage := none, description := none,
    description_md5 := none, checksum_md5 := none, checksum_sha1 := none,
    checksum_sha256 := none, tags := none, raw_control := [],
    repository_id := 1, distribution_id := 1, component_id := 1,
    architecture_id := 1, last_fetched_at := 3 }

/-- A concrete reconciliation state: the map holds the single row foo=1.0,
nothing staged, no entries processed. -/
def st0 : ReconState :=
  ⟨[rowFoo], [], 0⟩

/-- Concrete pass parameters with a clock that never advances. -/
def ps0 : ReconParams :=
  ⟨99, 1, some 1, some 1, some 1, fun _ => 0⟩

/-- Concrete pass parameters with a clock advancing two seconds per
processed entry. -/
def psFast : ReconParams :=
  ⟨99, 1, some 1, some 1, some 1, fun i => 2 * i⟩

/-- Filtering for a repository id after filtering it away yields nothing. -/
theorem filter_ne_then_eq (table : List DistRow) (repo_id : Nat) :
    (table.filter (fun d => d.repository_id != repo_id)).filter
      (fun d => d.repository_id == repo_id) = [] := by
  induction table with
  | nil => rfl
  | cons d ds ih =>
    by_cases h : d.repository_id = repo_id <;> simp [h, ih]

/-- Filtering away a repository id is idempotent. -/
theorem filter_ne_idem (table : List DistRow) (repo_id : Nat) :
    (table.filter (fun d => d.repository_id != repo_id)).filter
      (fun d => d.repository_id != repo_id)
      = table.filter (fun d => d.repository_id != repo_id) := by
  induction table with
  | nil => rfl
  | cons d ds ih =>
    by_cases h : d.repository_id = repo_id <;> simp [h, ih]

/-- Every row built by mkDistribution for a repository keeps that
repository id, so filtering the fresh generation is the identity. -/
theorem filter_map_mkDistribution (fetched : List (String × String × Entry))
    (repo_id : Nat) :
    ((fetched.map (fun t => mkDistribution repo_id t.1 t.2.1 t.2.2)).filter
        (fun d => d.repository_id == repo_id)
      = fetched.map (fun t => mkDistribution repo_id t.1 t.2.1 t.2.2)) ∧
    ((fetched.map (fun t => mkDistribution repo_id t.1 t.2.1 t.2.2)).filter
        (fun d => d.repository_id != repo_id) = []) := by
  induction fetched with
  | nil => exact ⟨rfl, rfl⟩
  | cons t ts ih =>
    refine ⟨?_, ?_⟩
    · rw [List.map_cons, List.filter_cons, if_pos (by simp [mkDistribution]), ih.1]
    · rw [List.map_cons, List.filter_cons, if_neg (by simp [mkDistribution]), ih.2]

/-- C4: a fetch-distributions pass for an existing repository replaces its
Distribution rows wholesale in one unit: after the transition the rows of
that repository are exactly the freshly fetched generation, and the rows
of every other repository are unchanged. -/
theorem replace_distributions_wholesale (repo_ids : List Nat) (table : List DistRow)
    (repo_id : Nat) (fetched : List (String × String × Entry))
    (hrepo : repo_ids.contains repo_id = true) :
    ((replace_repository_distributions repo_ids table repo_id fetched).filter
        (fun d => d.repository_id == repo_id)
      = fetched.map (fun t => mkDistribution repo_id t.1 t.2.1 t.2.2)) ∧
    ((replace_repository_distributions repo_ids table repo_id fetched).filter
        (fun d => d.repository_id != repo_id)
      = table.filter (fun d => d.repository_id != repo_id)) := by
  rw [replace_repository_distributions, if_pos hrepo]
  constructor
  · rw [List.filter_append, filter_ne_then_eq, (filter_map_mkDistribution fetched repo_id).1]
    rfl
  · rw [List.filter_append, filter_ne_idem, (filter_map_mkDistribution fetched repo_id).2,
      List.append_nil]

/-- C4 witness: replacing the distributions of repository 1 in a table
holding one stale row of repository 1 and one row of repository 2 keeps
repository 2 untouched and stores exactly the fetched generation. -/
theorem replace_distributions_wholesale_witness :
    ((replace_repository_distributions [1, 2]
        [{ repository_id := 1, name := "stale", raw := "", architecture_names := [],
           component_names := [], date := none, description := none, origin := "",
           suite := "stale", version := "", codename := "stale", last_fetched_at := 5 },
         { repository_id := 2, name := "other", raw := "", architecture_names := [],
           component_names := [], date := none, description := none, origin := "",
           suite := "other", version := "", codename := "other", last_fetched_at := 9 }]
        1 [("jammy", "rawtext", [("Suite", "jammy")])]).filter
        (fun d => d.repository_id == 1)
      = [mkDistribution 1 "jammy" "rawtext" [("Suite", "jammy")]]) ∧
    ((replace_repository_distributions [1, 2]
        [{ repository_id := 1, name := "stale", raw := "", architecture_names := [],
           component_names := [], date := none, description := none, origin := "",
           suite := "stale", version := "", codename := "stale", last_fetched_at := 5 },
         { repository_id := 2, name := "other", raw := "", architecture_names := [],
           component_names := [], date := none, description := none, origin := "",
           suite := "other", version := "", codename := "other", last_fetched_at := 9 }]
        1 [("jammy", "rawtext", [("Suite", "jammy")])]).filter
        (fun d => d.repository_id != 1)
      = [{ repository_id := 2, name := "other", raw := "", architecture_names := [],
           component_names := [], date := none, description := none, origin := "",
           suite := "other", version := "", codename := "other", last_fetched_at := 9 }]) := by
  have h := replace_distributions_wholesale [1, 2]
    [{ repository_id := 1, name := "stale", raw := "", architecture_names := [],
       component_names := [], date := none, description := none, origin := "",
       suite := "stale", version := "", codename := "stale", last_fetched_at := 5 },
     { repository_id := 2, name := "other", raw := "", architecture_names := [],
       component_names := [], date := none, description := none, origin := "",
       suite := "other", version := "", codename := "other", last_fetched_at := 9 }]
    1 [("jammy", "rawtext", [("Suite", "jammy")])] (by decide)
  exact ⟨h.1, by rw [h.2]; rfl⟩

/-! ## Theorems for the fetcher claims -/

/-- Membership in excludeSpecial never includes all or source. -/
theorem not_mem_excludeSpecial (l : List String) (x : String)
    (hx : x = "all" ∨ x = "source") : x ∉ excludeSpecial l := by
  intro hmem
  rw [excludeSpecial, List.mem_filter] at hmem
  rcases hx with h | h <;> subst h <;> simp at hmem

/-- C7 (amended): in the release pipeline's target selection
(RepositoryManager._load_release), the architectures all and source never
appear among the selected target architectures, for every declared set
and every caller filter; the backend package sync, by contrast, builds
its targets without this exclusion (see the counterexample). -/
theorem load_release_excludes_special (declared : List String)
    (archFilter : Option (List String)) :
    "all" ∉ selectTargetArches declared archFilter ∧
    "source" ∉ selectTargetArches declared archFilter := by
  have key : ∀ (x : String), x = "all" ∨ x = "source" →
      x ∉ selectTargetArches declared archFilter := by
    intro x hx hmem
    rcases archFilter with _ | fl
    · rw [selectTargetArches, ite_self] at hmem
      exact not_mem_excludeSpecial declared x hx hmem
    · by_cases hfl : fl.isEmpty
      · rw [selectTargetArches] at hmem
        simp only [hfl, if_true, ite_self] at hmem
        exact not_mem_excludeSpecial declared x hx hmem
      · by_cases ht : (List.filter
            (fun a => (List.filter (fun a => !pyIsEmpty a) fl).contains a)
            (excludeSpecial declared)).isEmpty
        · by_cases hemp : (excludeSpecial (List.filter (fun a => !pyIsEmpty a) fl)).isEmpty
          · rw [selectTargetArches] at hmem
            simp only [hfl, ht, hemp, if_true, if_false, Bool.false_eq_true] at hmem
            exact not_mem_excludeSpecial declared x hx hmem
          · rw [selectTargetArches] at hmem
            simp only [hfl, ht, hemp, if_true, if_false, Bool.false_eq_true] at hmem
            exact not_mem_excludeSpecial _ x hx hmem
        · rw [selectTargetArches] at hmem
          simp only [hfl, ht, if_true, if_false, Bool.false_eq_true] at hmem
          rw [List.mem_filter] at hmem
          exact not_mem_excludeSpecial declared x hx hmem.1
  exact ⟨key "all" (Or.inl rfl), key "source" (Or.inr rfl)⟩

/-- C7 counterexample: a distribution whose stored architecture names
include all (as declared by many real Release files) yields the pair
(main, all) among the (component, architecture) targets for which the
backend package sync fetches Packages indexes — the claimed exclusion
does not happen on this code path. -/
theorem backend_targets_include_all :
    ("main", "all") ∈ packageSyncTargets ["main"] ["amd64", "all"] := by
  decide


/-- C2: under the CHECK (default) policy with an existing local file of
mtime T, download_file skips the GET and reports success exactly when the
parsed Last-Modified is at most T + 1; when Last-Modified is newer than
T + 1 it performs the GET; and only when Last-Modified is missing or
unparsable does it fall back to comparing Content-Length with the local
size, skipping exactly on equality (and performing the GET when neither
header is usable). -/
theorem download_file_conditional_policy
    (T sz lm len : Int) (cl : Option Int) (getOk : Bool) :
    (download_file SkipMode.check (some ⟨T, sz⟩) (HeadResult.ok ⟨some lm, cl⟩) getOk
      = if lm ≤ T + 1 then ⟨true, false⟩ else ⟨getOk, true⟩) ∧
    (download_file SkipMode.check (some ⟨T, sz⟩) (HeadResult.ok ⟨none, some len⟩) getOk
      = if len = sz then ⟨true, false⟩ else ⟨getOk, true⟩) ∧
    (download_file SkipMode.check (some ⟨T, sz⟩) (HeadResult.ok ⟨none, none⟩) getOk
      = ⟨getOk, true⟩) :=
  ⟨rfl, rfl, rfl⟩

/-- One step of the listing parser equals the stateless per-tag candidate
followed by first-seen deduplication. -/
theorem handle_starttag_eq (entries : List String) (t : Tag) :
    handle_starttag entries t = (candidateName t).elim entries (dedupStep entries) := by
  rcases t with ⟨tag, attrs⟩
  by_cases h1 : pyToLower tag != "a"
  · simp [handle_starttag, candidateName, h1]
  · by_cases h2 : pyIsEmpty ((attrsGet attrs "href").getD "")
        || pyStartsWith ((attrsGet attrs "href").getD "") "?"
    · simp [handle_starttag, candidateName, h1, h2]
    · by_cases h3 : ((attrsGet attrs "href").getD "") == "../"
          || ((attrsGet attrs "href").getD "") == "/"
      · simp [handle_starttag, candidateName, h1, h2, h3]
      · by_cases h4 : !pyEndsWith ((attrsGet attrs "href").getD "") "/"
        · simp [handle_starttag, candidateName, h1, h2, h3, h4]
        · by_cases h5 : !pyIsEmpty (pyStripSlashes ((attrsGet attrs "href").getD ""))
          · simp [handle_starttag, candidateName, dedupStep, h1, h2, h3, h4, h5]
          · simp [handle_starttag, candidateName, h1, h2, h3, h4, h5]

/-- The parser fold equals first-seen deduplication of the per-tag
candidates, for any starting accumulator. -/
theorem foldl_handle_starttag (tags : List Tag) (acc : List String) :
    tags.foldl handle_starttag acc = (tags.filterMap candidateName).foldl dedupStep acc := by
  induction tags generalizing acc with
  | nil => rfl
  | cons t ts ih =>
    rw [List.foldl_cons, handle_starttag_eq, List.filterMap_cons]
    cases h : candidateName t with
    | none => simpa using ih acc
    | some n => simpa using ih (dedupStep acc n)

/-- C6 (amended): the listing parser returns exactly the names of anchor
hrefs that end in a slash and are not ../, /, or query links, each
stripped of leading AND trailing slashes, deduplicated, in first-seen
order; and when at least one such anchor exists, discovery returns
exactly those names (otherwise the plain-text line fallback applies). -/
theorem directory_listing_extraction (tags : List Tag) (lines : List String) :
    parserEntries tags = dedupFirstSeen (tags.filterMap candidateName) ∧
    (parserEntries tags ≠ [] → discoveredNames ⟨tags, lines⟩ = parserEntries tags) := by
  constructor
  · exact foldl_handle_starttag tags []
  · intro h
    simp only [discoveredNames]
    rw [if_neg]
    simp [h]

/-- C6 counterexample: for the anchor href /jammy/ the code strips the
leading slash as well, producing jammy, whereas the claim (trailing slash
stripped only) demands /jammy. -/
theorem directory_listing_leading_slash :
    discoveredNames ⟨[("a", [("href", "/jammy/")])], []⟩ = ["jammy"] ∧
    (["jammy"] : List String) ≠ ["/jammy"] := by
  constructor
  · rfl
  · decide

/-- C6 witness: on the specification's example listing the anchors yield
exactly jammy, and discovery returns the parser entries unchanged. -/
theorem directory_listing_extraction_witness :
    discoveredNames ⟨[("a", [("href", "jammy/")]), ("a", [("href", "../")]),
        ("a", [("href", "?C=N")])], []⟩
      = parserEntries [("a", [("href", "jammy/")]), ("a", [("href", "../")]),
        ("a", [("href", "?C=N")])] ∧
    parserEntries [("a", [("href", "jammy/")]), ("a", [("href", "../")]),
        ("a", [("href", "?C=N")])] = ["jammy"] := by
  refine ⟨(directory_listing_extraction _ []).2 ?_, ?_⟩
  · decide
  · rfl

/-- C8 (amended): fetcher.discover_distributions succeeds exactly when the
listing GET succeeds, returns the empty list, not an error, when a
successful listing yields no names; the RepositoryManager variant instead
raises when no names were extracted. -/
theorem discovery_empty_listing :
    (∀ resp : Except Unit Body,
        exceptOk (discover_distributions resp) = exceptOk resp) ∧
    (∀ body : Body, discoveredNames body = [] →
        discover_distributions (Except.ok body) = Except.ok []) ∧
    (∀ body : Body, discoveredNames body = [] →
        repo_discover_distributions (Except.ok body)
          = Except.error DiscoveryError.noDistributions) := by
  refine ⟨?_, ?_, ?_⟩
  · intro resp; cases resp <;> rfl
  · intro body h; simp [discover_distributions, h]
  · intro body h; simp [repo_discover_distributions, h]

/-- C8 witness: an empty successful listing makes the fetcher variant
return the empty list and the RepositoryManager variant raise. -/
theorem discovery_empty_listing_witness :
    discover_distributions (Except.ok ⟨[], []⟩) = Except.ok [] ∧
    repo_discover_distributions (Except.ok ⟨[], []⟩)
      = Except.error DiscoveryError.noDistributions :=
  ⟨discovery_empty_listing.2.1 ⟨[], []⟩ rfl,
   discovery_empty_listing.2.2 ⟨[], []⟩ rfl⟩

/-- C8 counterexample: a listing GET that succeeds (2xx) but yields no
names makes RepositoryManager._discover_distributions signal failure
(ValueError), and that failure is not a transport error — contradicting
the claim that discovery fails only on transport-level errors. -/
theorem repo_discovery_raises_on_empty :
    repo_discover_distributions (Except.ok ⟨[("p", [])], ["plain text body"]⟩)
      = Except.error DiscoveryError.noDistributions ∧
    DiscoveryError.noDistributions ≠ DiscoveryError.transport := by
  constructor
  · rfl
  · decide

/-- C3: download_packages_index attempts the Packages.gz variant first,
attempts the plain Packages variant only when the first fetch fails,
returns the first successful (url, local path), and returns none, not an
error, exactly when both attempts fail. -/
theorem download_packages_index_fallback
    (fetchOk : String → Bool) (toLocal : String → String)
    (repo_url dist component architecture : String) :
    (download_packages_index fetchOk toLocal repo_url dist component architecture =
      (let gz := build_packages_url repo_url dist component architecture "Packages.gz"
       let plain := build_packages_url repo_url dist component architecture "Packages"
       if fetchOk gz then (some (gz, toLocal gz), [gz])
       else if fetchOk plain then (some (plain, toLocal plain), [gz, plain])
       else (none, [gz, plain]))) ∧
    ((download_packages_index fetchOk toLocal repo_url dist component architecture).1
        = none ↔
      (fetchOk (build_packages_url repo_url dist component architecture "Packages.gz") = false ∧
       fetchOk (build_packages_url repo_url dist component architecture "Packages") = false)) := by
  constructor
  · by_cases h1 : fetchOk (build_packages_url repo_url dist component architecture "Packages.gz") <;>
      by_cases h2 : fetchOk (build_packages_url repo_url dist component architecture "Packages") <;>
      simp [download_packages_index, try_suffixes, h1, h2]
  · by_cases h1 : fetchOk (build_packages_url repo_url dist component architecture "Packages.gz") <;>
      by_cases h2 : fetchOk (build_packages_url repo_url dist component architecture "Packages") <;>
      simp [download_packages_index, try_suffixes, h1, h2]


/-- C5: the entry Package foo, Version 1.0, Size bogus builds a record
whose size attribute is the raw string bogus, not null — the construction
does not raise (SQLModel table classes skip validation), but the value
contradicts the specified null reduction; the _safe_int helper defined
directly above _build_package_model implements exactly the specified
reduction (none on non-numeric, the integer on numeric input) yet is
never called. -/
theorem build_package_model_size_bug :
    ((_build_package_model [("Package", "foo"), ("Version", "1.0"), ("Size", "bogus")]
        (some 1) (some 2) (some 3) 7 99).map (fun p => p.size) = some (some "bogus")) ∧
    _safe_int (some "bogus") = none ∧
    _safe_int (some "1234") = some 1234 ∧
    _safe_int none = none :=
  ⟨rfl, rfl, rfl, rfl⟩

/-- The async chunking loop equals the library-style split on blank lines
with empty chunks dropped, generalized over the accumulated paragraph. -/
theorem asyncChunks_eq_splitOnP (lines : List String) :
    ∀ acc : List String,
      asyncChunks lines acc
        = (((lines.splitOnP isBlankLine).modifyHead (fun c => acc ++ c)).filter
            (fun c => !c.isEmpty)) := by
  induction lines with
  | nil =>
    intro acc
    cases acc with
    | nil => rfl
    | cons x xs =>
      simp only [asyncChunks, List.splitOnP_nil, List.modifyHead, List.reverse_nil,
        List.append_nil, List.filter]
      rfl
  | cons l ls ih =>
    intro acc
    rcases hsp : ls.splitOnP isBlankLine with _ | ⟨c, cs⟩
    · exact absurd hsp (List.splitOnP_ne_nil _ _)
    · by_cases hb : isBlankLine l
      · rw [asyncChunks, if_pos hb, List.splitOnP_cons, if_pos hb]
        have hnil := ih []
        rw [hsp] at hnil
        simp only [List.modifyHead, List.nil_append] at hnil
        by_cases ha : acc.isEmpty
        · rw [if_pos ha, hnil]
          have : acc = [] := by
            cases acc with
            | nil => rfl
            | cons x xs => simp [List.isEmpty] at ha
          subst this
          simp [List.filter, hsp]
        · rw [if_neg ha, hnil]
          simp [List.filter, ha, hsp]
      · rw [asyncChunks, if_neg hb, List.splitOnP_cons, if_neg hb, ih (acc ++ [l]), hsp]
        simp [List.modifyHead, List.append_assoc]
/-- The async variant's hand-rolled paragraph accumulation is equivalent
to the blank-line paragraph splitting the sync variant delegates to the
deb822 library, followed by the same paragraph parser. -/
theorem paragraphStream_eq (lines : List String) :
    asyncParagraphStream lines = syncParagraphStream lines := by
  rw [asyncParagraphStream, syncParagraphStream, asyncChunks_eq_splitOnP lines []]
  rcases hsp : lines.splitOnP isBlankLine with _ | ⟨c, cs⟩
  · exact absurd hsp (List.splitOnP_ne_nil _ _)
  · simp [List.modifyHead]

/-- C10 (amended): over any decoded line sequence the async iterator's
hand-rolled chunking yields the same field maps as the paragraph
splitting the sync iterator delegates to deb822, so the two iterators
agree on every file whose text both variants decode identically — any
file at a non-.gz path, and any valid gzip file at a .gz path. They
diverge exactly on a non-gzip file at a .gz path, where the sync
iterator raises and the async iterator falls back to a plain-text read
(see the counterexample). -/
theorem iter_packages_entries_async_eq :
    (∀ lines : List String,
      asyncParagraphStream lines = syncParagraphStream lines) ∧
    (∀ f : IndexFile, f.isGzPath = false ∨ f.gzipValid = true →
      iter_packages_entries_async f = iter_packages_entries f) := by
  refine ⟨paragraphStream_eq, ?_⟩
  intro f hf
  unfold iter_packages_entries iter_packages_entries_async
  rcases hf with h | h
  · simp [h, paragraphStream_eq]
  · cases hgz : f.isGzPath <;> simp [h, hgz, paragraphStream_eq]

/-- C10 witness: on a valid gzip-compressed index file the two iterators
agree, both yielding the single parsed paragraph. -/
theorem iter_packages_entries_async_eq_witness :
    iter_packages_entries_async gzValidFile = iter_packages_entries gzValidFile ∧
    iter_packages_entries gzValidFile
      = Except.ok [[("Package", "foo"), ("Version", "1.0")]] :=
  ⟨iter_packages_entries_async_eq.2 gzValidFile (Or.inr rfl), rfl⟩

/-- C10 counterexample: for a plain-text Packages file stored at a .gz
path — the very case the fallbacks exist for — the synchronous iterator
raises (BadGzipFile escapes, since its except guards only the open)
while the asynchronous iterator falls back to a plain read and yields
the parsed entries, so the two iterators do not yield the same sequence
for every local index file. -/
theorem sync_raises_on_misnamed_gzip :
    iter_packages_entries gzMisnamed = Except.error () ∧
    iter_packages_entries_async gzMisnamed
      = Except.ok [[("Package", "foo"), ("Version", "1.0")]] :=
  ⟨rfl, rfl⟩

/-- touchFirst changes nothing but a timestamp: the rows with timestamps
erased are unchanged. -/
theorem touchFirst_stripTs (now : Nat) (n v : String) (l : List PackageRow) :
    (touchFirst now n v l).map stripTs = l.map stripTs := by
  induction l with
  | nil => rfl
  | cons r rs ih =>
    unfold touchFirst
    split
    · simp only [List.map_cons]
      rfl
    · simp only [List.map_cons, ih]

/-- Key membership only reads the timestamp-free part of the rows. -/
theorem keyMem_map_stripTs (l : List PackageRow) (n v : String) :
    keyMem (l.map stripTs) n v = keyMem l n v := by
  induction l with
  | nil => rfl
  | cons r rs ih =>
    simp only [keyMem, List.map_cons, List.any_cons] at ih ⊢
    rw [ih]
    rfl

/-- Rows equal up to timestamps have the same keys. -/
theorem keyMem_congr (l l' : List PackageRow) (h : l.map stripTs = l'.map stripTs)
    (n v : String) : keyMem l n v = keyMem l' n v := by
  rw [← keyMem_map_stripTs l, ← keyMem_map_stripTs l', h]

/-- A successfully built package row carries the entry's Package and
Version values as its key. -/
theorem build_package_model_key (e : Entry) (d c a : Option Nat) (rid now : Nat)
    (p : PackageRow) (h : _build_package_model e d c a rid now = some p) :
    p.name = (fieldGet e "Package").getD "" ∧
    p.version = (fieldGet e "Version").getD "" := by
  unfold _build_package_model at h
  dsimp only at h
  split at h
  · exact absurd h (by simp)
  · split at h
    · exact absurd h (by simp)
    · injection h with h
      subst h
      exact ⟨rfl, rfl⟩

/-- Every branch of the entry loop body counts the entry exactly once. -/
theorem reconcileStep_idx (ps : ReconParams) (st : ReconState) (e : Entry) :
    (reconcileStep ps st e).idx = st.idx + 1 := by
  unfold reconcileStep
  cases hp : fieldGet e "Package" <;> cases hv : fieldGet e "Version" <;> dsimp only <;>
    try rfl
  split
  · rfl
  · cases _build_package_model e ps.distribution_id ps.component_id ps.architecture_id
      ps.repository_id ps.now <;> rfl

/-- The entry loop body never changes the timestamp-free part of the
in-memory map. -/
theorem reconcileStep_existing (ps : ReconParams) (st : ReconState) (e : Entry) :
    (reconcileStep ps st e).existing.map stripTs = st.existing.map stripTs := by
  unfold reconcileStep
  cases hp : fieldGet e "Package" <;> cases hv : fieldGet e "Version" <;> dsimp only <;>
    try rfl
  split
  · exact touchFirst_stripTs _ _ _ _
  · cases _build_package_model e ps.distribution_id ps.component_id ps.architecture_id
      ps.repository_id ps.now <;> rfl

/-- Every row the entry loop body stages was either already staged or has
a key absent from the in-memory map. -/
theorem reconcileStep_inserted (ps : ReconParams) (st : ReconState) (e : Entry) :
    ∀ r ∈ (reconcileStep ps st e).inserted,
      r ∈ st.inserted ∨ keyMem st.existing r.name r.version = false := by
  unfold reconcileStep
  cases hp : fieldGet e "Package" <;> cases hv : fieldGet e "Version" <;> dsimp only <;>
    try exact fun r hr => Or.inl hr
  rename_i n v
  split
  · exact fun r hr => Or.inl hr
  · rename_i hk
    cases hb : _build_package_model e ps.distribution_id ps.component_id
        ps.architecture_id ps.repository_id ps.now with
    | none => exact fun r hr => Or.inl hr
    | some p =>
      intro r hr
      rw [List.mem_append] at hr
      rcases hr with hr | hr
      · exact Or.inl hr
      · rw [List.mem_singleton] at hr
        right
        rw [hr]
        have hkey := build_package_model_key e ps.distribution_id ps.component_id
          ps.architecture_id ps.repository_id ps.now p hb
        rw [hkey.1, hkey.2, hp, hv]
        simp only [Option.getD_some]
        simp only [Bool.not_eq_true] at hk
        exact hk

/-- Over a whole pass, the in-memory map keeps its timestamp-free rows and
every staged row has a key absent from the map. -/
theorem reconcileLoop_pass (ps : ReconParams) (es : List Entry) :
    ∀ (st : ReconState) (last : Nat),
      ((reconcileLoop ps es st last).1.existing.map stripTs
        = st.existing.map stripTs) ∧
      (∀ r ∈ (reconcileLoop ps es st last).1.inserted,
        r ∈ st.inserted ∨ keyMem st.existing r.name r.version = false) := by
  induction es with
  | nil => exact fun st last => ⟨rfl, fun r hr => Or.inl hr⟩
  | cons e es ih =>
    intro st last
    have hex := reconcileStep_existing ps st e
    have hins := reconcileStep_inserted ps st e
    unfold reconcileLoop
    dsimp only
    split
    · refine ⟨?_, ?_⟩
      · rw [(ih _ _).1, hex]
      · intro r hr
        rcases (ih _ _).2 r hr with h | h
        · exact hins r h
        · exact Or.inr (by rw [← keyMem_congr _ _ hex r.name r.version]; exact h)
    · split
      · dsimp only
        refine ⟨?_, ?_⟩
        · rw [(ih _ _).1, hex]
        · intro r hr
          rcases (ih _ _).2 r hr with h | h
          · exact hins r h
          · exact Or.inr (by rw [← keyMem_congr _ _ hex r.name r.version]; exact h)
      · refine ⟨?_, ?_⟩
        · rw [(ih _ _).1, hex]
        · intro r hr
          rcases (ih _ _).2 r hr with h | h
          · exact hins r h
          · exact Or.inr (by rw [← keyMem_congr _ _ hex r.name r.version]; exact h)

/-- The final entry count of a loop run is the starting count plus the
number of streamed entries. -/
theorem reconcileLoop_idx (ps : ReconParams) (es : List Entry) :
    ∀ (st : ReconState) (last : Nat),
      (reconcileLoop ps es st last).1.idx = st.idx + es.length := by
  induction es with
  | nil => intro st last; rfl
  | cons e es ih =>
    intro st last
    have hstep := reconcileStep_idx ps st e
    unfold reconcileLoop
    dsimp only
    split
    · rw [ih]
      simp only [List.length_cons]
      omega
    · split
      · dsimp only
        rw [ih]
        simp only [List.length_cons]
        omega
      · rw [ih]
        simp only [List.length_cons]
        omega

/-- The progress counts yielded inside the loop are strictly increasing,
above the starting count and at most the final count. -/
theorem reconcileLoop_yields (ps : ReconParams) (es : List Entry) :
    ∀ (st : ReconState) (last : Nat),
      List.Chain' (· < ·) (reconcileLoop ps es st last).2 ∧
      (∀ y ∈ (reconcileLoop ps es st last).2,
        st.idx < y ∧ y ≤ (reconcileLoop ps es st last).1.idx) := by
  induction es with
  | nil =>
    intro st last
    exact ⟨List.chain'_nil, fun y hy => absurd hy (List.not_mem_nil y)⟩
  | cons e es ih =>
    intro st last
    have hidx := reconcileStep_idx ps st e
    unfold reconcileLoop
    dsimp only
    split
    · have hloop := ih (reconcileStep ps st e) last
      refine ⟨hloop.1, ?_⟩
      intro y hy
      have hb := hloop.2 y hy
      exact ⟨by omega, hb.2⟩
    · split
      · dsimp only
        have hloop := ih (reconcileStep ps st e) (ps.clock (reconcileStep ps st e).idx)
        have hfin := reconcileLoop_idx ps es (reconcileStep ps st e)
          (ps.clock (reconcileStep ps st e).idx)
        constructor
        · rw [List.chain'_cons']
          refine ⟨?_, hloop.1⟩
          intro y hy
          exact (hloop.2 y (List.mem_of_mem_head? hy)).1
        · intro y hy
          rcases List.mem_cons.1 hy with h | h
          · subst h
            refine ⟨by omega, ?_⟩
            rw [hfin]
            omega
          · have hb := hloop.2 y h
            exact ⟨by omega, hb.2⟩
      · have hloop := ih (reconcileStep ps st e) last
        refine ⟨hloop.1, ?_⟩
        intro y hy
        have hb := hloop.2 y hy
        exact ⟨by omega, hb.2⟩

/-- With a clock that never advances, the loop yields no intermediate
progress at all, however many entries stream by. -/
theorem reconcileLoop_zero (ps : ReconParams) (hclock : ∀ i, ps.clock i = 0)
    (es : List Entry) : ∀ st : ReconState, (reconcileLoop ps es st 0).2 = [] := by
  induction es with
  | nil => intro st; rfl
  | cons e es ih =>
    intro st
    unfold reconcileLoop
    dsimp only
    split
    · exact ih _
    · rw [if_neg]
      · exact ih _
      · rw [hclock]
        omega

/-- C1: in a reconciliation pass, a streamed entry whose (Package,
Version) key matches a row of the in-memory map (built once from storage)
only refreshes that row's last_fetched_at — the map keeps the same rows
up to timestamps and nothing is staged for insert, so no duplicate row
arises; an entry whose key is absent leaves the map unchanged and stages
exactly the freshly built row (none when the build refuses, e.g. an
empty-string name); an entry lacking Package or Version only advances the
entry count; and over a whole pass the map rows are unchanged up to
timestamps and every staged row has a key absent from the map loaded at
the start. -/
theorem reconcile_upsert (ps : ReconParams) (rows : List PackageRow)
    (entries : List Entry) (st : ReconState) (e : Entry) (n v : String) :
    (fieldGet e "Package" = some n → fieldGet e "Version" = some v →
      (keyMem st.existing n v = true →
        (reconcileStep ps st e).existing = touchFirst ps.now n v st.existing ∧
        (reconcileStep ps st e).existing.map stripTs = st.existing.map stripTs ∧
        (reconcileStep ps st e).inserted = st.inserted) ∧
      (keyMem st.existing n v = false →
        (reconcileStep ps st e).existing = st.existing ∧
        (reconcileStep ps st e).inserted
          = st.inserted ++ (_build_package_model e ps.distribution_id ps.component_id
              ps.architecture_id ps.repository_id ps.now).toList)) ∧
    (fieldGet e "Package" = none ∨ fieldGet e "Version" = none →
      reconcileStep ps st e = { st with idx := st.idx + 1 }) ∧
    ((replace_packages_for_target ps rows entries).1.existing.map stripTs
      = rows.map stripTs) ∧
    (∀ r ∈ (replace_packages_for_target ps rows entries).1.inserted,
      keyMem rows r.name r.version = false) := by
  refine ⟨?_, ?_, ?_, ?_⟩
  · intro hp hv
    constructor
    · intro hk
      unfold reconcileStep
      rw [hp, hv]
      dsimp only
      rw [if_pos hk]
      exact ⟨rfl, touchFirst_stripTs _ _ _ _, rfl⟩
    · intro hk
      unfold reconcileStep
      rw [hp, hv]
      dsimp only
      rw [if_neg (by simp [hk])]
      cases hb : _build_package_model e ps.distribution_id ps.component_id
          ps.architecture_id ps.repository_id ps.now with
      | none => exact ⟨rfl, (List.append_nil _).symm⟩
      | some p => exact ⟨rfl, rfl⟩
  · intro h
    unfold reconcileStep
    cases hp : fieldGet e "Package" <;> cases hv : fieldGet e "Version" <;> dsimp only <;>
      try rfl
    rcases h with h | h
    · rw [hp] at h
      exact absurd h (by simp)
    · rw [hv] at h
      exact absurd h (by simp)
  · dsimp only [replace_packages_for_target]
    exact (reconcileLoop_pass ps entries ⟨rows, [], 0⟩ (ps.clock 0)).1
  · intro r hr
    dsimp only [replace_packages_for_target] at hr
    rcases (reconcileLoop_pass ps entries ⟨rows, [], 0⟩ (ps.clock 0)).2 r hr with h | h
    · exact absurd h (List.not_mem_nil r)
    · exact h

/-- C1 witness: against the map holding foo=1.0, the matching entry
stages nothing and preserves the map up to timestamps, the unmatched
entry bar=2.0 stages exactly the built row, and an entry missing Package
only advances the counter. -/
theorem reconcile_upsert_witness :
    ((reconcileStep ps0 st0 [("Package", "foo"), ("Version", "1.0")]).inserted = [] ∧
      (reconcileStep ps0 st0 [("Package", "foo"), ("Version", "1.0")]).existing.map stripTs
        = [rowFoo].map stripTs) ∧
    ((reconcileStep ps0 st0 [("Package", "bar"), ("Version", "2.0")]).inserted
      = [] ++ (_build_package_model [("Package", "bar"), ("Version", "2.0")]
          ps0.distribution_id ps0.component_id ps0.architecture_id ps0.repository_id
          ps0.now).toList) ∧
    reconcileStep ps0 st0 [("Version", "1.0")] = { st0 with idx := st0.idx + 1 } := by
  refine ⟨⟨?_, ?_⟩, ?_, ?_⟩
  · exact (((reconcile_upsert ps0 [rowFoo] [] st0
      [("Package", "foo"), ("Version", "1.0")] "foo" "1.0").1 rfl rfl).1 (by rfl)).2.2
  · exact (((reconcile_upsert ps0 [rowFoo] [] st0
      [("Package", "foo"), ("Version", "1.0")] "foo" "1.0").1 rfl rfl).1 (by rfl)).2.1
  · exact (((reconcile_upsert ps0 [rowFoo] [] st0
      [("Package", "bar"), ("Version", "2.0")] "bar" "2.0").1 rfl rfl).2 (by rfl)).2
  · exact (reconcile_upsert ps0 [rowFoo] [] st0
      [("Version", "1.0")] "x" "y").2.1 (Or.inl rfl)

/-- C9 (amended): staged writes are flushed on a time threshold — after
an entry carrying both Package and Version, when more than one second of
monotonic time has passed since the last flush (entries missing either
field are counted but their continue bypasses the check) — not on an
entry-count threshold; a running entry count is reported after each
flush, the reports never decrease, and the pass always ends by flushing
and reporting the total number of streamed entries; with a clock that
never advances there is exactly one final flush regardless of how many
entries streamed. -/
theorem flush_progress (ps : ReconParams) (rows : List PackageRow)
    (entries : List Entry) :
    ((replace_packages_for_target ps rows entries).2).getLast?
      = some entries.length ∧
    List.Chain' (· ≤ ·) (replace_packages_for_target ps rows entries).2 ∧
    (replace_packages_for_target
        ⟨ps.now, ps.repository_id, ps.distribution_id, ps.component_id,
          ps.architecture_id, fun _ => 0⟩ rows entries).2 = [entries.length] := by
  have hfin := reconcileLoop_idx ps entries ⟨rows, [], 0⟩ (ps.clock 0)
  have hy := reconcileLoop_yields ps entries ⟨rows, [], 0⟩ (ps.clock 0)
  refine ⟨?_, ?_, ?_⟩
  · dsimp only [replace_packages_for_target]
    rw [List.getLast?_concat, hfin]
    simp
  · dsimp only [replace_packages_for_target]
    rw [List.chain'_append]
    refine ⟨hy.1.imp (fun a b h => le_of_lt h), List.chain'_singleton _, ?_⟩
    intro x hx y hyh
    have hxmem := List.mem_of_mem_getLast? hx
    have hxb := (hy.2 x hxmem).2
    simp only [List.head?_cons, Option.mem_def, Option.some_inj] at hyh
    rw [hyh] at hxb
    exact hxb
  · dsimp only [replace_packages_for_target]
    rw [reconcileLoop_zero _ (fun i => rfl) entries ⟨rows, [], 0⟩,
      reconcileLoop_idx]
    simp

/-- C9 counterexample: the same three streamed entries (each carrying
Package and Version) produce a flush and progress report after every
single entry under a clock advancing two seconds per entry, but only the
single final flush under a clock that never advances — the flush boundary
is the elapsed monotonic time, not a count threshold on entries
processed, and it can fall after every row; moreover three entries
missing Package hit the continue and bypass the flush check entirely,
yielding only the final report even under the fast clock. -/
theorem flush_time_counterexample :
    (replace_packages_for_target psFast []
      [[("Package", "a"), ("Version", "1")], [("Package", "b"), ("Version", "1")],
        [("Package", "c"), ("Version", "1")]]).2 = [1, 2, 3, 3] ∧
    (replace_packages_for_target ps0 []
      [[("Package", "a"), ("Version", "1")], [("Package", "b"), ("Version", "1")],
        [("Package", "c"), ("Version", "1")]]).2 = [3] ∧
    (replace_packages_for_target psFast [] [[], [], []]).2 = [3] :=
  ⟨rfl, rfl, rfl⟩

end AptReader
